import Mathlib

/-!
# Share-with-user/group panel (`src/gui/shareusergroupwidget.cpp`)

A shallow embedding of the two widgets of `shareusergroupwidget.cpp`:
`ShareUserGroupWidget` (the panel for one shared path) and `ShareWidget`
(one row per share).  Every slot of the source is a function from the widget
state to the new widget state together with the list of calls it makes on its
collaborators (`ShareManager`, `Share`, `ShareeModel`, `QCompleter`).

Conventions.
* A `Share::Permissions` value (a `QFlags` over `int`) is the `Nat` of its bit
  pattern; the slots only use `&` and `|`, which act bit by bit.
* A `QSharedPointer<Share>` is a `Share` record carrying the address `ptr` of
  the pointee; the signals of a `Share` object are addressed by that `ptr`.
* An item of `sharesLayout` is `Option ShareWidget`: `none` is an item whose
  `widget()` is `NULL`.
* `share.h`, `sharee.h` and the `ui_*.h` headers are not part of `src`; the
  constants and the one helper the slots read from them are the fields of
  `Headers`, a parameter of every definition that needs them.
-/

namespace OCC

/-! ## Data model -/

/-- A `Sharee` as built by `Sharee(shareWith, displayName, type)`; `type` is the
integer value of the `Sharee::Type` enumerator. -/
structure Sharee where
  shareWith : String
  displayName : String
  type : Int
  deriving DecidableEq, Repr

/-- The part of a `Share` object read by the widgets: `getShareWith()`,
`getPermissions()`, `getShareType()`, and the address of the object. -/
structure Share where
  ptr : Nat
  shareWith : Sharee
  permissions : Nat
  shareType : Int
  deriving DecidableEq, Repr

/-- Declarations the source takes from headers outside `src`: the
`Share::Permission*` flags, `Share::TypeLink`, `Sharee::User` and
`Sharee::format()`. -/
structure Headers where
  PermissionRead : Nat
  PermissionUpdate : Nat
  PermissionCreate : Nat
  PermissionDelete : Nat
  PermissionShare : Nat
  TypeLink : Int
  User : Int
  format : Sharee → String

/-- The values `Qt::CheckState` can take. -/
inductive CheckState where
  | Unchecked
  | PartiallyChecked
  | Checked
  deriving DecidableEq, Repr

/-- The arguments a `ShareeModel` is constructed with (the parent pointer
apart): account user, search text, "file" or "folder", and the sharees to leave
out of the result. -/
structure ShareeModel where
  account : String
  search : String
  type : String
  sharees : List Sharee
  deriving DecidableEq, Repr

/-- Calls the widgets make on their collaborators. -/
inductive Call where
  | fetchShares (path : String)
  | createShare (path : String) (shareType : Int) (shareWith : String) (permissions : Nat)
  | shareeModelFetch (model : ShareeModel)
  | completerComplete
  | deleteShare (share : Share)
  | setPermissions (share : Share) (permissions : Nat)
  deriving DecidableEq, Repr

/-- State of one `ShareWidget` row: the wrapped share, the text of the
`sharedWith` label, the four permission check boxes, `isEnabled()`, and whether
`deleteLater()` has been called on it. -/
structure ShareWidget where
  _share : Share
  sharedWith : String
  permissionUpdate : CheckState
  permissionCreate : CheckState
  permissionDelete : CheckState
  permissionShare : CheckState
  enabled : Bool
  deleteLaterPosted : Bool
  deriving DecidableEq, Repr

/-- State of the `ShareUserGroupWidget` panel. `user` is
`_account->credentials()->user()`; `completerModel` is the model currently set
on `_completer`, `_completerModel` the member pointer. -/
structure ShareUserGroupWidget where
  user : String
  _sharePath : String
  _localPath : String
  _resharingAllowed : Bool
  _isFile : Bool
  shareeLineEditText : String
  searchPushButtonEnabled : Bool
  labelSharesVisible : Bool
  sharesLayout : List (Option ShareWidget)
  _sharees : List Sharee
  _completerModel : Option ShareeModel
  completerModel : Option ShareeModel
  deriving DecidableEq, Repr

/-! ## `ShareWidget` -/

/-- Constructor `ShareWidget::ShareWidget(share, parent)`: a check box is set to `Checked`
when `getPermissions() & flag` is non-zero and keeps the form's `Unchecked`
otherwise; a new widget is enabled. -/
def ShareWidget.new (H : Headers) (share : Share) : ShareWidget :=
  { _share := share
    sharedWith := H.format share.shareWith
    permissionUpdate :=
      if share.permissions &&& H.PermissionUpdate ≠ 0 then .Checked else .Unchecked
    permissionCreate :=
      if share.permissions &&& H.PermissionCreate ≠ 0 then .Checked else .Unchecked
    permissionDelete :=
      if share.permissions &&& H.PermissionDelete ≠ 0 then .Checked else .Unchecked
    permissionShare :=
      if share.permissions &&& H.PermissionShare ≠ 0 then .Checked else .Unchecked
    enabled := true
    deleteLaterPosted := false }

/-- Slot `ShareWidget::on_deleteShareButton_clicked`. -/
def ShareWidget.on_deleteShareButton_clicked (w : ShareWidget) : ShareWidget × List Call :=
  ({ w with enabled := false }, [Call.deleteShare w._share])

/-- Slot `ShareWidget::slotPermissionsChanged`. -/
def ShareWidget.slotPermissionsChanged (H : Headers) (w : ShareWidget) :
    ShareWidget × List Call :=
  let w1 := { w with enabled := false }
  let permissions := H.PermissionRead
  let permissions :=
    if w1.permissionUpdate = .Checked then permissions ||| H.PermissionUpdate else permissions
  let permissions :=
    if w1.permissionCreate = .Checked then permissions ||| H.PermissionCreate else permissions
  let permissions :=
    if w1.permissionDelete = .Checked then permissions ||| H.PermissionDelete else permissions
  let permissions :=
    if w1.permissionShare = .Checked then permissions ||| H.PermissionShare else permissions
  (w1, [Call.setPermissions w1._share permissions])

/-- Slot `ShareWidget::slotShareDeleted`: `deleteLater()`. -/
def ShareWidget.slotShareDeleted (w : ShareWidget) : ShareWidget :=
  { w with deleteLaterPosted := true }

/-- Slot `ShareWidget::slotPermissionsSet`. -/
def ShareWidget.slotPermissionsSet (w : ShareWidget) : ShareWidget :=
  { w with enabled := true }

/-- Getter `ShareWidget::share`. -/
def ShareWidget.share (w : ShareWidget) : Share :=
  w._share

/-! ## `ShareUserGroupWidget` -/

/-- Slot `ShareUserGroupWidget::on_shareeLineEdit_textChanged`. -/
def ShareUserGroupWidget.on_shareeLineEdit_textChanged (s : ShareUserGroupWidget)
    (text : String) : ShareUserGroupWidget :=
  if text = "" then
    { s with searchPushButtonEnabled := false }
  else
    { s with searchPushButtonEnabled := true }

/-- Body of the `for` loop of `on_searchPushButton_clicked` for one layout
item: the recipient of the row is appended unless the item has no widget. -/
def appendRecipient (sharees : List Sharee) (item : Option ShareWidget) : List Sharee :=
  match item with
  | some w => sharees ++ [w.share.shareWith]
  | none => sharees

/-- Slot `ShareUserGroupWidget::on_searchPushButton_clicked`. -/
def ShareUserGroupWidget.on_searchPushButton_clicked (H : Headers)
    (s : ShareUserGroupWidget) : ShareUserGroupWidget × List Call :=
  let sharees : List Sharee := []
  let currentUser : Sharee := { shareWith := s.user, displayName := "", type := H.User }
  let sharees := sharees ++ [currentUser]
  let sharees := s.sharesLayout.foldl appendRecipient sharees
  let model : ShareeModel :=
    { account := s.user
      search := s.shareeLineEditText
      type := if s._isFile then "file" else "folder"
      sharees := sharees }
  ({ s with
      _sharees := s._sharees ++ [currentUser]
      _completerModel := some model
      completerModel := some model },
   [Call.shareeModelFetch model])

/-- Slot `ShareUserGroupWidget::slotUpdateCompletion`. -/
def ShareUserGroupWidget.slotUpdateCompletion (s : ShareUserGroupWidget) :
    ShareUserGroupWidget × List Call :=
  (s, [Call.completerComplete])

/-- Slot `ShareUserGroupWidget::getShares`. -/
def ShareUserGroupWidget.getShares (s : ShareUserGroupWidget) :
    ShareUserGroupWidget × List Call :=
  (s, [Call.fetchShares s._sharePath])

/-- The `while ((child = takeAt(0)) != 0) delete child->widget();` loop of
`slotSharesFetched`: one item is taken off the front per iteration until
`takeAt(0)` returns `0` on the empty layout. -/
def deleteAllWidgets : List (Option ShareWidget) → List (Option ShareWidget)
  | [] => []
  | _child :: rest => deleteAllWidgets rest

/-- Body of the `foreach` loop of `slotSharesFetched` for one share. -/
def addShareWidget (H : Headers) (layout : List (Option ShareWidget)) (share : Share) :
    List (Option ShareWidget) :=
  if share.shareType = H.TypeLink then
    layout
  else
    layout ++ [some (ShareWidget.new H share)]

/-- Slot `ShareUserGroupWidget::slotSharesFetched`. -/
def ShareUserGroupWidget.slotSharesFetched (H : Headers) (s : ShareUserGroupWidget)
    (shares : List Share) : ShareUserGroupWidget :=
  let layout := deleteAllWidgets s.sharesLayout
  let layout := shares.foldl (addShareWidget H) layout
  { s with
      sharesLayout := layout
      labelSharesVisible := !shares.isEmpty }

/-- Call `_ui->shareeLineEdit->setText(text)`: the line edit takes the text and,
when this changes its text, emits `textChanged(text)`; the signal is connected
by name to `on_shareeLineEdit_textChanged`, which runs before `setText`
returns. Setting the text the line edit already has emits nothing. -/
def ShareUserGroupWidget.shareeLineEdit_setText (s : ShareUserGroupWidget) (text : String) :
    ShareUserGroupWidget :=
  if s.shareeLineEditText = text then
    s
  else
    ({ s with shareeLineEditText := text }).on_shareeLineEdit_textChanged text

/-- Slot `ShareUserGroupWidget::slotCompleterActivated`; `getSharee` is
`_completerModel->getSharee` (`none` for a null pointer) and `row` is
`index.row()`. -/
def ShareUserGroupWidget.slotCompleterActivated (H : Headers) (s : ShareUserGroupWidget)
    (getSharee : Int → Option Sharee) (row : Int) : ShareUserGroupWidget × List Call :=
  match getSharee row with
  | none => (s, [])
  | some sharee =>
    (({ s with completerModel := none }).shareeLineEdit_setText "",
     [Call.createShare s._sharePath sharee.type sharee.shareWith H.PermissionRead])

/-- Header values used for the concrete instances below: permission flags
1, 2, 4, 8, 16, link type 3, user type 0, and a `format` that shows the display
name. -/
def sampleHeaders : Headers :=
  { PermissionRead := 1
    PermissionUpdate := 2
    PermissionCreate := 4
    PermissionDelete := 8
    PermissionShare := 16
    TypeLink := 3
    User := 0
    format := fun sharee => sharee.displayName }

/-! ## Event dispatch

The slots run when the Qt event loop delivers a user action or a signal of a
collaborator.  `ShareUserGroupWidget.step` is that dispatch for the panel with
its rows, `RowState.step` the dispatch seen from a single row together with the
requests it has issued on its share and that are not yet answered. -/

/-- The four check boxes of a row. -/
inductive PermissionBox where
  | Update
  | Create
  | Delete
  | Share
  deriving DecidableEq, Repr

/-- The check box `box` of the row takes the state `state` (the user's click on
it, before `clicked(bool)` is emitted). -/
def ShareWidget.setCheckState (w : ShareWidget) (box : PermissionBox) (state : CheckState) :
    ShareWidget :=
  match box with
  | .Update => { w with permissionUpdate := state }
  | .Create => { w with permissionCreate := state }
  | .Delete => { w with permissionDelete := state }
  | .Share => { w with permissionShare := state }

/-- Events delivered to the panel and its rows. `textChanged` is the line edit
changing its text; `shareesReady`, `shareCreated`, `sharesFetched` are signals
of the `ShareeModel` and the `ShareManager`; `completerActivated` is the
completer's `activated(QModelIndex)`; `deleteClicked i` and
`permissionClicked i box state` are clicks in the row at item `i` of the
layout; `permissionsSet ptr` and `shareDeleted ptr` are signals of the `Share`
object at address `ptr`; `deferredDelete` is the event loop destroying the
widgets on which `deleteLater()` was called. -/
inductive Event where
  | textChanged (text : String)
  | searchClicked
  | shareesReady
  | shareCreated
  | sharesFetched (shares : List Share)
  | completerActivated (getSharee : Int → Option Sharee) (row : Int)
  | deleteClicked (i : Nat)
  | permissionClicked (i : Nat) (box : PermissionBox) (state : CheckState)
  | permissionsSet (ptr : Nat)
  | shareDeleted (ptr : Nat)
  | deferredDelete

/-- A click in the row at item `i`: a disabled row, an item without widget and
an index past the end receive nothing; otherwise the slot runs on the row. -/
def clickRow (layout : List (Option ShareWidget)) (i : Nat)
    (slot : ShareWidget → ShareWidget × List Call) : List (Option ShareWidget) × List Call :=
  match layout[i]? with
  | some (some w) =>
    if w.enabled then
      let out := slot w
      (layout.set i (some out.1), out.2)
    else
      (layout, [])
  | _ => (layout, [])

/-- A signal of the `Share` object at `ptr`: the connected slot runs on every
row that wraps that object. -/
def signalRows (layout : List (Option ShareWidget)) (ptr : Nat)
    (slot : ShareWidget → ShareWidget) : List (Option ShareWidget) :=
  layout.map fun item =>
    match item with
    | some w => if w._share.ptr = ptr then some (slot w) else some w
    | none => none

/-- The event loop destroys the rows on which `deleteLater()` was called; a
destroyed widget leaves the layout. -/
def destroyDeferred (layout : List (Option ShareWidget)) : List (Option ShareWidget) :=
  layout.filter fun item =>
    match item with
    | some w => !w.deleteLaterPosted
    | none => true

/-- One event delivered to the panel: the new state and the calls made. -/
def ShareUserGroupWidget.step (H : Headers) (s : ShareUserGroupWidget) :
    Event → ShareUserGroupWidget × List Call
  | .textChanged text =>
    (({ s with shareeLineEditText := text }).on_shareeLineEdit_textChanged text, [])
  | .searchClicked =>
    if s.searchPushButtonEnabled then s.on_searchPushButton_clicked H else (s, [])
  | .shareesReady => s.slotUpdateCompletion
  | .shareCreated => s.getShares
  | .sharesFetched shares => (s.slotSharesFetched H shares, [])
  | .completerActivated getSharee row => s.slotCompleterActivated H getSharee row
  | .deleteClicked i =>
    let out := clickRow s.sharesLayout i ShareWidget.on_deleteShareButton_clicked
    ({ s with sharesLayout := out.1 }, out.2)
  | .permissionClicked i box state =>
    let out := clickRow s.sharesLayout i
      (fun w => (w.setCheckState box state).slotPermissionsChanged H)
    ({ s with sharesLayout := out.1 }, out.2)
  | .permissionsSet ptr =>
    ({ s with sharesLayout := signalRows s.sharesLayout ptr ShareWidget.slotPermissionsSet }, [])
  | .shareDeleted ptr =>
    ({ s with sharesLayout := signalRows s.sharesLayout ptr ShareWidget.slotShareDeleted }, [])
  | .deferredDelete =>
    ({ s with sharesLayout := destroyDeferred s.sharesLayout }, [])

/-- A sequence of events delivered one after the other. -/
def ShareUserGroupWidget.run (H : Headers) (s : ShareUserGroupWidget) :
    List Event → ShareUserGroupWidget × List Call
  | [] => (s, [])
  | e :: es =>
    let out := s.step H e
    let rest := ShareUserGroupWidget.run H out.1 es
    (rest.1, out.2 ++ rest.2)

/-- Whether the event is a rebuild of the panel (`sharesFetched`) or the
deletion confirmation of the `Share` object at `ptr`. -/
def Event.rebuildsOrConfirms (ptr : Nat) : Event → Bool
  | .sharesFetched _ => true
  | .shareDeleted p => p == ptr
  | _ => false

/-- The rows shown by the panel: the widgets of the layout items. -/
def ShareUserGroupWidget.rows (s : ShareUserGroupWidget) : List ShareWidget :=
  s.sharesLayout.filterMap id

/-- Whether a call is `Share::setPermissions`. -/
def Call.isSetPermissions : Call → Bool
  | .setPermissions _ _ => true
  | _ => false

/-- Whether a call is `Share::deleteShare`. -/
def Call.isDeleteShare : Call → Bool
  | .deleteShare _ => true
  | _ => false

/-- Whether a call is `ShareManager::createShare`. -/
def Call.isCreateShare : Call → Bool
  | .createShare _ _ _ _ => true
  | _ => false

/-- The permission set the specification gives for the check boxes of a row:
READ | (UPDATE if checked) | (CREATE if checked) | (DELETE if checked) |
(SHARE if checked). -/
def ShareWidget.specPermissions (H : Headers) (w : ShareWidget) : Nat :=
  H.PermissionRead |||
    (if w.permissionUpdate = .Checked then H.PermissionUpdate else 0) |||
    (if w.permissionCreate = .Checked then H.PermissionCreate else 0) |||
    (if w.permissionDelete = .Checked then H.PermissionDelete else 0) |||
    (if w.permissionShare = .Checked then H.PermissionShare else 0)

/-- The five permission flags have no bit in common, pair by pair. -/
def Headers.flagsDisjoint (H : Headers) : Prop :=
  H.PermissionRead &&& H.PermissionUpdate = 0 ∧
  H.PermissionRead &&& H.PermissionCreate = 0 ∧
  H.PermissionRead &&& H.PermissionDelete = 0 ∧
  H.PermissionRead &&& H.PermissionShare = 0 ∧
  H.PermissionUpdate &&& H.PermissionCreate = 0 ∧
  H.PermissionUpdate &&& H.PermissionDelete = 0 ∧
  H.PermissionUpdate &&& H.PermissionShare = 0 ∧
  H.PermissionCreate &&& H.PermissionDelete = 0 ∧
  H.PermissionCreate &&& H.PermissionShare = 0 ∧
  H.PermissionDelete &&& H.PermissionShare = 0

instance Headers.decidableFlagsDisjoint (H : Headers) : Decidable H.flagsDisjoint := by
  unfold Headers.flagsDisjoint
  infer_instance

/-- Each of the four flags tested by the constructor of `ShareWidget` is a
single bit. -/
def Headers.singleBitFlags (H : Headers) : Prop :=
  (∃ k, H.PermissionUpdate = 2 ^ k) ∧
  (∃ k, H.PermissionCreate = 2 ^ k) ∧
  (∃ k, H.PermissionDelete = 2 ^ k) ∧
  (∃ k, H.PermissionShare = 2 ^ k)

/-- Events of a single row. -/
inductive RowEvent where
  | deleteClicked
  | permissionClicked (box : PermissionBox) (state : CheckState)
  | permissionsSet
  | shareDeleted
  deriving DecidableEq, Repr

/-- A row together with the requests it has issued on its share that have not
been confirmed yet. -/
structure RowState where
  widget : ShareWidget
  inFlight : List Call
  deriving DecidableEq, Repr

/-- The three states of a row. -/
inductive RowPhase where
  | Enabled
  | DisabledPending
  | Destroyed
  deriving DecidableEq, Repr

/-- The state a row is in: `Destroyed` once `deleteLater()` was called,
otherwise `Enabled` or `DisabledPending` after `isEnabled()`. -/
def RowState.phase (r : RowState) : RowPhase :=
  if r.widget.deleteLaterPosted then .Destroyed
  else if r.widget.enabled then .Enabled
  else .DisabledPending

/-- A row right after its construction for `share`. -/
def RowState.init (H : Headers) (share : Share) : RowState :=
  { widget := ShareWidget.new H share, inFlight := [] }

/-- One event of a row. A click is accepted only by an enabled row and adds the
calls of its slot to the requests in flight; a confirmation is delivered only
when a request of its kind is in flight, which it answers. `none` when the
event cannot happen in this state. -/
def RowState.step (H : Headers) (r : RowState) : RowEvent → Option RowState
  | .deleteClicked =>
    if r.phase = .Enabled then
      let out := r.widget.on_deleteShareButton_clicked
      some { widget := out.1, inFlight := r.inFlight ++ out.2 }
    else none
  | .permissionClicked box state =>
    if r.phase = .Enabled then
      let out := (r.widget.setCheckState box state).slotPermissionsChanged H
      some { widget := out.1, inFlight := r.inFlight ++ out.2 }
    else none
  | .permissionsSet =>
    if r.phase ≠ .Destroyed ∧ r.inFlight.any Call.isSetPermissions = true then
      some { widget := r.widget.slotPermissionsSet
             inFlight := r.inFlight.eraseP Call.isSetPermissions }
    else none
  | .shareDeleted =>
    if r.phase ≠ .Destroyed ∧ r.inFlight.any Call.isDeleteShare = true then
      some { widget := r.widget.slotShareDeleted
             inFlight := r.inFlight.eraseP Call.isDeleteShare }
    else none

/-- A sequence of row events; `none` as soon as one of them cannot happen. -/
def RowState.run (H : Headers) (r : RowState) : List RowEvent → Option RowState
  | [] => some r
  | e :: es =>
    match r.step H e with
    | some r1 => RowState.run H r1 es
    | none => none

/-- Whether a layout item is a row for the `Share` object `share` on which
`deleteLater()` has not been called. -/
def isLiveRowFor (share : Share) (item : Option ShareWidget) : Bool :=
  match item with
  | some w => decide (w._share = share) && !w.deleteLaterPosted
  | none => false

/-- Whether the panel shows a row for the `Share` object `share` that is not
scheduled for deletion. -/
def ShareUserGroupWidget.showsRowFor (s : ShareUserGroupWidget) (share : Share) : Bool :=
  s.sharesLayout.any (isLiveRowFor share)

/-- What holds of a row in every reachable state: a row that is not destroyed
is enabled exactly when nothing is in flight; a destroyed row has nothing in
flight and is disabled; at most one request is in flight, and it is a
`setPermissions` or a `deleteShare`. -/
def RowState.Inv (r : RowState) : Prop :=
  (r.widget.deleteLaterPosted = false → (r.widget.enabled = true ↔ r.inFlight = [])) ∧
  (r.widget.deleteLaterPosted = true → r.inFlight = []) ∧
  r.inFlight.length ≤ 1 ∧
  (∀ c ∈ r.inFlight, c.isSetPermissions = true ∨ c.isDeleteShare = true) ∧
  (r.widget.deleteLaterPosted = true → r.widget.enabled = false)

/-- A sample share: user `bob`, read and update permission, user type. -/
def sampleShare : Share :=
  { ptr := 7
    shareWith := { shareWith := "bob", displayName := "Bob", type := 0 }
    permissions := 3
    shareType := 0 }

/-- A sample link share. -/
def sampleLinkShare : Share :=
  { ptr := 9
    shareWith := { shareWith := "", displayName := "", type := 3 }
    permissions := 1
    shareType := 3 }

/-- A sample completer model, as left by an earlier search for "bo". -/
def sampleModel : ShareeModel :=
  { account := "alice"
    search := "bo"
    type := "folder"
    sharees := [{ shareWith := "alice", displayName := "", type := 0 }] }

/-- A sample lookup of the completer model: one candidate, at row 0. -/
def sampleGetSharee (row : Int) : Option Sharee :=
  if row = 0 then some { shareWith := "bob", displayName := "Bob", type := 0 } else none

/-- A sample panel state with one row for `sampleShare`. -/
def samplePanel : ShareUserGroupWidget :=
  { user := "alice"
    _sharePath := "/docs"
    _localPath := "/home/alice/docs"
    _resharingAllowed := true
    _isFile := false
    shareeLineEditText := "bo"
    searchPushButtonEnabled := true
    labelSharesVisible := true
    sharesLayout := [some (ShareWidget.new sampleHeaders sampleShare)]
    _sharees := []
    _completerModel := some sampleModel
    completerModel := some sampleModel }

/-! ## Loops in closed form -/

theorem deleteAllWidgets_eq_nil (layout : List (Option ShareWidget)) :
    deleteAllWidgets layout = [] := by
  induction layout with
  | nil => rfl
  | cons _ rest ih => simpa [deleteAllWidgets] using ih

theorem foldl_addShareWidget (H : Headers) (shares : List Share)
    (layout : List (Option ShareWidget)) :
    shares.foldl (addShareWidget H) layout =
      layout ++ (shares.filter fun share => decide (share.shareType ≠ H.TypeLink)).map
        fun share => some (ShareWidget.new H share) := by
  induction shares generalizing layout with
  | nil => simp
  | cons share rest ih =>
    by_cases h : share.shareType = H.TypeLink
    · simp [List.foldl_cons, addShareWidget, h, ih]
    · simp [List.foldl_cons, addShareWidget, h, ih]

theorem foldl_appendRecipient (layout : List (Option ShareWidget)) (sharees : List Sharee) :
    layout.foldl appendRecipient sharees =
      sharees ++ (layout.filterMap id).map fun w => w._share.shareWith := by
  induction layout generalizing sharees with
  | nil => simp
  | cons item rest ih =>
    cases item with
    | none => simp [List.foldl_cons, appendRecipient, ih]
    | some w => simp [List.foldl_cons, appendRecipient, ShareWidget.share, ih]

theorem filterMap_id_map_some {α β : Type} (f : α → β) (l : List α) :
    (l.map fun a => some (f a)).filterMap id = l.map f := by
  induction l with
  | nil => rfl
  | cons a rest ih => simp [ih]

/-! ## Bitwise facts -/

theorem land_lor_right (a b c : Nat) : (a ||| b) &&& c = (a &&& c) ||| (b &&& c) := by
  apply Nat.eq_of_testBit_eq
  intro i
  simp [Bool.and_or_distrib_right]

theorem ite_land_two_pow (p k : Nat) :
    (if p &&& 2 ^ k ≠ 0 then 2 ^ k else 0) = p &&& 2 ^ k := by
  by_cases h : p.testBit k = true
  · have h1 : p &&& 2 ^ k = 2 ^ k := by
      apply Nat.eq_of_testBit_eq
      intro i
      by_cases hk : k = i
      · subst hk; simp [Nat.testBit_two_pow, h]
      · simp [Nat.testBit_two_pow, hk]
    have h2 : (2 : Nat) ^ k ≠ 0 := by positivity
    simp [h1, h2]
  · have h1 : p &&& 2 ^ k = 0 := by
      apply Nat.eq_of_testBit_eq
      intro i
      by_cases hk : k = i
      · subst hk; simp [Nat.testBit_two_pow, h]
      · simp [Nat.testBit_two_pow, hk]
    simp [h1]

theorem eq_iff_testBit (a b : Nat) : a = b ↔ ∀ i, a.testBit i = b.testBit i :=
  ⟨fun h _ => by rw [h], Nat.eq_of_testBit_eq⟩

theorem land_lor_eq_self_iff (p m r : Nat) :
    (p &&& m) ||| r = p ↔ (p &&& r = r ∧ p &&& (r ||| m) = p) := by
  simp only [eq_iff_testBit, Nat.testBit_or, Nat.testBit_and]
  constructor
  · intro h
    refine ⟨fun i => ?_, fun i => ?_⟩ <;>
    · have := h i
      revert this
      cases p.testBit i <;> cases m.testBit i <;> cases r.testBit i <;> simp
  · rintro ⟨h1, h2⟩ i
    have a := h1 i
    have b := h2 i
    revert a b
    cases p.testBit i <;> cases m.testBit i <;> cases r.testBit i <;> simp

theorem lor_of_lands (p r u c d s : Nat) :
    r ||| (p &&& u) ||| (p &&& c) ||| (p &&& d) ||| (p &&& s) =
      (p &&& (u ||| c ||| d ||| s)) ||| r := by
  apply Nat.eq_of_testBit_eq
  intro i
  simp only [Nat.testBit_or, Nat.testBit_and]
  cases p.testBit i <;> cases r.testBit i <;> cases u.testBit i <;> cases c.testBit i <;>
    cases d.testBit i <;> cases s.testBit i <;> rfl

theorem slotPermissionsChanged_calls (H : Headers) (w : ShareWidget) :
    (w.slotPermissionsChanged H).2 = [Call.setPermissions w._share (w.specPermissions H)] := by
  simp only [ShareWidget.slotPermissionsChanged, ShareWidget.specPermissions]
  by_cases hu : w.permissionUpdate = .Checked <;> by_cases hc : w.permissionCreate = .Checked <;>
    by_cases hd : w.permissionDelete = .Checked <;> by_cases hs : w.permissionShare = .Checked <;>
    simp [hu, hc, hd, hs]

/-! ## Claims -/

/-- C1 (evaluation of the code): after `slotSharesFetched` the label
`labelShares` is visible exactly when the fetched list is non-empty, whatever
the types of its shares; for a list made of one link-type share the label is
visible although no row was created. -/
theorem slotSharesFetched_label (H : Headers) (s : ShareUserGroupWidget)
    (shares : List Share) (share : Share) :
    (s.slotSharesFetched H shares).labelSharesVisible = !shares.isEmpty ∧
    (s.slotSharesFetched H [{ share with shareType := H.TypeLink }]).labelSharesVisible = true ∧
    (s.slotSharesFetched H [{ share with shareType := H.TypeLink }]).sharesLayout = [] := by
  refine ⟨rfl, rfl, ?_⟩
  simp [ShareUserGroupWidget.slotSharesFetched, deleteAllWidgets_eq_nil, addShareWidget]

/-- C2: after `slotSharesFetched` the row list is exactly one new `ShareWidget`
per non-link share of the fetched list, in order, and nothing else; the number
of rows is the number of non-link shares; the result does not depend on the
rows shown before; and delivering the same list twice gives the same panel
state as delivering it once. -/
theorem slotSharesFetched_rows (H : Headers) (s s0 : ShareUserGroupWidget)
    (shares : List Share) :
    (s.slotSharesFetched H shares).sharesLayout =
      (shares.filter fun share => decide (share.shareType ≠ H.TypeLink)).map
        (fun share => some (ShareWidget.new H share)) ∧
    (s.slotSharesFetched H shares).rows.length =
      shares.countP (fun share => decide (share.shareType ≠ H.TypeLink)) ∧
    (s.slotSharesFetched H shares).rows.all
      (fun w => decide (w._share.shareType ≠ H.TypeLink)) = true ∧
    (s.slotSharesFetched H shares).sharesLayout = (s0.slotSharesFetched H shares).sharesLayout ∧
    (s.slotSharesFetched H shares).slotSharesFetched H shares = s.slotSharesFetched H shares := by
  have hlayout : ∀ t : ShareUserGroupWidget, (t.slotSharesFetched H shares).sharesLayout =
      (shares.filter fun share => decide (share.shareType ≠ H.TypeLink)).map
        (fun share => some (ShareWidget.new H share)) := by
    intro t
    simp [ShareUserGroupWidget.slotSharesFetched, deleteAllWidgets_eq_nil, foldl_addShareWidget]
  have hrows : (s.slotSharesFetched H shares).rows =
      (shares.filter fun share => decide (share.shareType ≠ H.TypeLink)).map
        (fun share => ShareWidget.new H share) := by
    rw [ShareUserGroupWidget.rows, hlayout, filterMap_id_map_some]
  refine ⟨hlayout s, ?_, ?_, ?_, ?_⟩
  · rw [hrows, List.length_map, List.countP_eq_length_filter]
  · rw [hrows, List.all_eq_true]
    intro w hw
    obtain ⟨share, hshare, rfl⟩ := List.mem_map.mp hw
    simpa [ShareWidget.new] using (List.mem_filter.mp hshare).2
  · rw [hlayout s, hlayout s0]
  · simp [ShareUserGroupWidget.slotSharesFetched, deleteAllWidgets_eq_nil]

/-- C7: `on_shareeLineEdit_textChanged text` sets the search button to enabled
exactly when `text` is not the empty string and changes no other part of the
panel state; a text of one blank enables the button. -/
theorem on_shareeLineEdit_textChanged_spec (s : ShareUserGroupWidget) (text : String) :
    s.on_shareeLineEdit_textChanged text =
      { s with searchPushButtonEnabled := decide (text ≠ "") } ∧
    (s.on_shareeLineEdit_textChanged " ").searchPushButtonEnabled = true ∧
    (s.on_shareeLineEdit_textChanged "").searchPushButtonEnabled = false := by
  refine ⟨?_, ?_, ?_⟩
  · by_cases h : text = ""
    · simp [ShareUserGroupWidget.on_shareeLineEdit_textChanged, h]
    · simp [ShareUserGroupWidget.on_shareeLineEdit_textChanged, h]
  · simp [ShareUserGroupWidget.on_shareeLineEdit_textChanged]
  · simp [ShareUserGroupWidget.on_shareeLineEdit_textChanged]

/-- C3: for every state of the four check boxes `slotPermissionsChanged`
makes exactly one call, `setPermissions` on the row's share, with the set
READ | (UPDATE if checked) | (CREATE if checked) | (DELETE if checked) |
(SHARE if checked); that set contains the read flag, and, the flags having no
bit in common, it contains no bit of a flag whose check box is not checked. -/
theorem slotPermissionsChanged_submits (H : Headers) (w : ShareWidget)
    (hd : H.flagsDisjoint) :
    ∃ p, (w.slotPermissionsChanged H).2 = [Call.setPermissions w._share p] ∧
      p = w.specPermissions H ∧
      p &&& H.PermissionRead = H.PermissionRead ∧
      (w.permissionUpdate ≠ .Checked → p &&& H.PermissionUpdate = 0) ∧
      (w.permissionCreate ≠ .Checked → p &&& H.PermissionCreate = 0) ∧
      (w.permissionDelete ≠ .Checked → p &&& H.PermissionDelete = 0) ∧
      (w.permissionShare ≠ .Checked → p &&& H.PermissionShare = 0) := by
  obtain ⟨ru, rc, rd, rs, uc, ud, us, cd, cs, ds⟩ := hd
  have cu := (Nat.and_comm _ _).trans uc
  have du := (Nat.and_comm _ _).trans ud
  have su := (Nat.and_comm _ _).trans us
  have dc := (Nat.and_comm _ _).trans cd
  have sc := (Nat.and_comm _ _).trans cs
  have sd := (Nat.and_comm _ _).trans ds
  refine ⟨_, slotPermissionsChanged_calls H w, rfl, ?_, ?_, ?_, ?_, ?_⟩
  · apply Nat.eq_of_testBit_eq
    intro i
    simp only [ShareWidget.specPermissions, Nat.testBit_and, Nat.testBit_or]
    cases H.PermissionRead.testBit i <;> simp
  all_goals
    intro h
    by_cases hu : w.permissionUpdate = .Checked <;>
      by_cases hc : w.permissionCreate = .Checked <;>
      by_cases hd : w.permissionDelete = .Checked <;>
      by_cases hs : w.permissionShare = .Checked <;>
      first
      | exact absurd ‹_› h
      | simp [ShareWidget.specPermissions, land_lor_right, hu, hc, hd, hs,
          ru, rc, rd, rs, uc, ud, us, cd, cs, ds, cu, du, su, dc, sc, sd]

/-- C3, instance: with the flags 1, 2, 4, 8, 16 the row built for a share with
permissions 3 has "update" checked only, and submits 3. -/
theorem slotPermissionsChanged_submits_witness :
    sampleHeaders.flagsDisjoint ∧
    ∃ p, ((ShareWidget.new sampleHeaders sampleShare).slotPermissionsChanged sampleHeaders).2 =
        [Call.setPermissions (ShareWidget.new sampleHeaders sampleShare)._share p] ∧
      p = (ShareWidget.new sampleHeaders sampleShare).specPermissions sampleHeaders ∧
      p &&& sampleHeaders.PermissionRead = sampleHeaders.PermissionRead ∧
      ((ShareWidget.new sampleHeaders sampleShare).permissionUpdate ≠ .Checked →
        p &&& sampleHeaders.PermissionUpdate = 0) ∧
      ((ShareWidget.new sampleHeaders sampleShare).permissionCreate ≠ .Checked →
        p &&& sampleHeaders.PermissionCreate = 0) ∧
      ((ShareWidget.new sampleHeaders sampleShare).permissionDelete ≠ .Checked →
        p &&& sampleHeaders.PermissionDelete = 0) ∧
      ((ShareWidget.new sampleHeaders sampleShare).permissionShare ≠ .Checked →
        p &&& sampleHeaders.PermissionShare = 0) :=
  ⟨by decide,
   slotPermissionsChanged_submits sampleHeaders (ShareWidget.new sampleHeaders sampleShare)
     (by decide)⟩

/-- C4: a search click hands to the `ShareeModel` it creates (and fetches, and
sets on the completer) the list made of the current account's user followed by
the recipient of every row of the layout, in order; the list contains the
current user, its length is 1 + the number of rows, and it does not depend on
`_sharees` or on the model left by an earlier search, so a second click gives
the same list. -/
theorem on_searchPushButton_clicked_exclusion (H : Headers) (s : ShareUserGroupWidget)
    (sharees0 : List Sharee) (m0 m1 : Option ShareeModel) :
    ∃ model : ShareeModel,
      (s.on_searchPushButton_clicked H).2 = [Call.shareeModelFetch model] ∧
      (s.on_searchPushButton_clicked H).1.completerModel = some model ∧
      model.search = s.shareeLineEditText ∧
      model.sharees =
        { shareWith := s.user, displayName := "", type := H.User } ::
          s.rows.map (fun w => w._share.shareWith) ∧
      ({ shareWith := s.user, displayName := "", type := H.User } : Sharee) ∈ model.sharees ∧
      model.sharees.length = 1 + s.rows.length ∧
      ({ s with _sharees := sharees0, _completerModel := m0, completerModel := m1
        }.on_searchPushButton_clicked H).2 = [Call.shareeModelFetch model] ∧
      ((s.on_searchPushButton_clicked H).1.on_searchPushButton_clicked H).2 =
        [Call.shareeModelFetch model] := by
  refine ⟨_, rfl, rfl, rfl, ?_, ?_, ?_, rfl, rfl⟩
  · simp [foldl_appendRecipient, ShareUserGroupWidget.rows, ShareWidget.share]
  · simp [foldl_appendRecipient]
  · simp [foldl_appendRecipient, ShareUserGroupWidget.rows, Nat.add_comm]

theorem shareeLineEdit_setText_empty (s : ShareUserGroupWidget) :
    s.shareeLineEdit_setText "" =
      { s with
          shareeLineEditText := ""
          searchPushButtonEnabled :=
            if s.shareeLineEditText = "" then s.searchPushButtonEnabled else false } := by
  by_cases ht : s.shareeLineEditText = ""
  · simp only [ShareUserGroupWidget.shareeLineEdit_setText, ht, if_true]
    cases s
    simp_all
  · have ht1 : ¬ ("" = s.shareeLineEditText) := fun h => ht h.symm
    simp [ShareUserGroupWidget.shareeLineEdit_setText,
      ShareUserGroupWidget.on_shareeLineEdit_textChanged, ht]

/-- C5: when the activated index resolves to a sharee, `slotCompleterActivated`
makes exactly one call, `createShare(_sharePath, sharee type, sharee
identifier, PermissionRead)`, whatever the lookup returns at other rows;
afterwards the search text is empty and no model is set on the completer. The
change of the search text disables the search button (`setText` emits
`textChanged("")` unless the text was empty already, and then the button keeps
its state), and the rest of the panel state is unchanged. -/
theorem slotCompleterActivated_creates (H : Headers) (s : ShareUserGroupWidget)
    (getSharee : Int → Option Sharee) (row : Int) (sharee : Sharee)
    (h : getSharee row = some sharee) :
    (s.slotCompleterActivated H getSharee row).2 =
      [Call.createShare s._sharePath sharee.type sharee.shareWith H.PermissionRead] ∧
    (s.slotCompleterActivated H getSharee row).1.shareeLineEditText = "" ∧
    (s.slotCompleterActivated H getSharee row).1.completerModel = none ∧
    (s.shareeLineEditText ≠ "" →
      (s.slotCompleterActivated H getSharee row).1.searchPushButtonEnabled = false) ∧
    (s.slotCompleterActivated H getSharee row).1 =
      { s with
          completerModel := none
          shareeLineEditText := ""
          searchPushButtonEnabled :=
            if s.shareeLineEditText = "" then s.searchPushButtonEnabled else false } := by
  have hout : s.slotCompleterActivated H getSharee row =
      (({ s with completerModel := none }).shareeLineEdit_setText "",
       [Call.createShare s._sharePath sharee.type sharee.shareWith H.PermissionRead]) := by
    simp only [ShareUserGroupWidget.slotCompleterActivated, h]
  rw [hout, shareeLineEdit_setText_empty]
  refine ⟨rfl, rfl, rfl, ?_, rfl⟩
  intro ht
  simp [ht]

/-- C5, instance: selecting row 0 of the sample lookup in the sample panel,
whose search text is "bo" and whose search button is enabled: one
`createShare` call, the text is emptied, the model detached and the button
disabled. -/
theorem slotCompleterActivated_creates_witness :
    sampleGetSharee 0 = some { shareWith := "bob", displayName := "Bob", type := 0 } ∧
    (samplePanel.slotCompleterActivated sampleHeaders sampleGetSharee 0).2 =
      [Call.createShare "/docs" 0 "bob" 1] ∧
    (samplePanel.slotCompleterActivated sampleHeaders sampleGetSharee 0).1.shareeLineEditText
      = "" ∧
    (samplePanel.slotCompleterActivated sampleHeaders sampleGetSharee 0).1.completerModel
      = none ∧
    (samplePanel.slotCompleterActivated sampleHeaders sampleGetSharee
      0).1.searchPushButtonEnabled = false :=
  ⟨rfl,
   (slotCompleterActivated_creates sampleHeaders samplePanel sampleGetSharee 0
     { shareWith := "bob", displayName := "Bob", type := 0 } rfl).1,
   (slotCompleterActivated_creates sampleHeaders samplePanel sampleGetSharee 0
     { shareWith := "bob", displayName := "Bob", type := 0 } rfl).2.1,
   (slotCompleterActivated_creates sampleHeaders samplePanel sampleGetSharee 0
     { shareWith := "bob", displayName := "Bob", type := 0 } rfl).2.2.1,
   (slotCompleterActivated_creates sampleHeaders samplePanel sampleGetSharee 0
     { shareWith := "bob", displayName := "Bob", type := 0 } rfl).2.2.2.1 (by decide)⟩

/-- C6: when the activated index resolves to a null sharee,
`slotCompleterActivated` makes no call and leaves the panel state as it was
(search text and completer model included); a `createShare` call is made
exactly when the resolved sharee is not null, and then it is the only call. -/
theorem slotCompleterActivated_null (H : Headers) (s : ShareUserGroupWidget)
    (getSharee : Int → Option Sharee) (row : Int) :
    (getSharee row = none → s.slotCompleterActivated H getSharee row = (s, [])) ∧
    ((s.slotCompleterActivated H getSharee row).2.any Call.isCreateShare = true ↔
      getSharee row ≠ none) ∧
    ((s.slotCompleterActivated H getSharee row).2.length = 1 ↔ getSharee row ≠ none) := by
  cases h : getSharee row with
  | none => simp [ShareUserGroupWidget.slotCompleterActivated, h]
  | some sharee => simp [ShareUserGroupWidget.slotCompleterActivated, h, Call.isCreateShare]

/-- C6, instance: row 5 of the sample lookup is null; the sample panel keeps
its search text "bo" and its completer model. -/
theorem slotCompleterActivated_null_witness :
    sampleGetSharee 5 = none ∧
    samplePanel.slotCompleterActivated sampleHeaders sampleGetSharee 5 = (samplePanel, []) :=
  ⟨rfl, (slotCompleterActivated_null sampleHeaders samplePanel sampleGetSharee 5).1 rfl⟩

/-- C10: a row built from a share with permission set `p` and asked to submit
without any change of its check boxes calls `setPermissions` with
(p & (UPDATE | CREATE | DELETE | SHARE)) | READ, each of the four flags being a
single bit; that set equals `p` exactly when `p` contains the read flag and no
bit outside the five flags, and it always contains the read flag, so a share
without it gains it. -/
theorem permissions_round_trip (H : Headers) (share : Share) (hb : H.singleBitFlags) :
    ((ShareWidget.new H share).slotPermissionsChanged H).2 =
      [Call.setPermissions share
        ((share.permissions &&& (H.PermissionUpdate ||| H.PermissionCreate |||
          H.PermissionDelete ||| H.PermissionShare)) ||| H.PermissionRead)] ∧
    (((share.permissions &&& (H.PermissionUpdate ||| H.PermissionCreate |||
          H.PermissionDelete ||| H.PermissionShare)) ||| H.PermissionRead) = share.permissions ↔
      (share.permissions &&& H.PermissionRead = H.PermissionRead ∧
        share.permissions &&& (H.PermissionRead ||| (H.PermissionUpdate |||
          H.PermissionCreate ||| H.PermissionDelete ||| H.PermissionShare)) =
          share.permissions)) ∧
    ((share.permissions &&& (H.PermissionUpdate ||| H.PermissionCreate |||
          H.PermissionDelete ||| H.PermissionShare)) ||| H.PermissionRead) &&&
        H.PermissionRead = H.PermissionRead ∧
    (share.permissions &&& H.PermissionRead ≠ H.PermissionRead →
      ((share.permissions &&& (H.PermissionUpdate ||| H.PermissionCreate |||
          H.PermissionDelete ||| H.PermissionShare)) ||| H.PermissionRead) ≠
        share.permissions) := by
  obtain ⟨⟨ku, hu⟩, ⟨kc, hc⟩, ⟨kd, hd⟩, ⟨ks, hs⟩⟩ := hb
  have hiff := land_lor_eq_self_iff share.permissions
    (H.PermissionUpdate ||| H.PermissionCreate ||| H.PermissionDelete ||| H.PermissionShare)
    H.PermissionRead
  refine ⟨?_, hiff, ?_, ?_⟩
  · rw [slotPermissionsChanged_calls, ← lor_of_lands]
    have e : ∀ (f : Nat) (k : Nat), f = 2 ^ k →
        (if (if share.permissions &&& f ≠ 0 then CheckState.Checked else CheckState.Unchecked)
            = CheckState.Checked then f else 0) = share.permissions &&& f := by
      intro f k hf
      subst hf
      rw [← ite_land_two_pow]
      by_cases hz : share.permissions &&& 2 ^ k = 0 <;> simp [hz]
    simp only [ShareWidget.specPermissions, ShareWidget.new, e _ _ hu, e _ _ hc, e _ _ hd,
      e _ _ hs]
  · apply Nat.eq_of_testBit_eq
    intro i
    simp only [Nat.testBit_and, Nat.testBit_or]
    cases H.PermissionRead.testBit i <;> simp
  · intro hne heq
    exact hne (hiff.mp heq).1

/-- C10, instance: with the flags 1, 2, 4, 8, 16 a share with permissions 34
(update and a bit outside the five flags, no read) is submitted as 3. -/
theorem permissions_round_trip_witness :
    sampleHeaders.singleBitFlags ∧
    ((ShareWidget.new sampleHeaders { sampleShare with permissions := 34
      }).slotPermissionsChanged sampleHeaders).2 =
      [Call.setPermissions { sampleShare with permissions := 34 } 3] :=
  ⟨⟨⟨1, rfl⟩, ⟨2, rfl⟩, ⟨3, rfl⟩, ⟨4, rfl⟩⟩,
   (permissions_round_trip sampleHeaders { sampleShare with permissions := 34 }
     ⟨⟨1, rfl⟩, ⟨2, rfl⟩, ⟨3, rfl⟩, ⟨4, rfl⟩⟩).1⟩

/-! ## Rows of the panel under events -/

theorem any_set_of {α : Type} (f : α → Bool) (l : List α) (i : Nat) (a b : α)
    (hi : l[i]? = some a) (hab : f a = true → f b = true) (h : l.any f = true) :
    (l.set i b).any f = true := by
  induction l generalizing i with
  | nil => simp at h
  | cons x rest ih =>
    cases i with
    | zero =>
      simp only [List.getElem?_cons_zero, Option.some.injEq] at hi
      subst hi
      simp only [List.set_cons_zero, List.any_cons, Bool.or_eq_true] at h ⊢
      exact h.imp hab id
    | succ j =>
      simp only [List.getElem?_cons_succ] at hi
      simp only [List.set_cons_succ, List.any_cons, Bool.or_eq_true] at h ⊢
      exact h.imp id (ih j hi)

theorem any_map_of {α : Type} (f : α → Bool) (g : α → α) (l : List α)
    (hg : ∀ a, f a = true → f (g a) = true) (h : l.any f = true) :
    (l.map g).any f = true := by
  rw [List.any_eq_true] at h ⊢
  obtain ⟨a, ha, hfa⟩ := h
  exact ⟨g a, List.mem_map_of_mem g ha, hg a hfa⟩

theorem any_filter_of {α : Type} (f p : α → Bool) (l : List α)
    (hp : ∀ a, f a = true → p a = true) (h : l.any f = true) :
    (l.filter p).any f = true := by
  rw [List.any_eq_true] at h ⊢
  obtain ⟨a, ha, hfa⟩ := h
  exact ⟨a, List.mem_filter.mpr ⟨ha, hp a hfa⟩, hfa⟩

theorem clickRow_keeps_row (share : Share) (layout : List (Option ShareWidget)) (i : Nat)
    (slot : ShareWidget → ShareWidget × List Call)
    (hslot : ∀ w, (slot w).1._share = w._share ∧
      (slot w).1.deleteLaterPosted = w.deleteLaterPosted)
    (h : layout.any (isLiveRowFor share) = true) :
    (clickRow layout i slot).1.any (isLiveRowFor share) = true := by
  unfold clickRow
  split
  · rename_i w hw
    split
    · refine any_set_of _ layout i (some w) _ hw ?_ h
      simp only [isLiveRowFor, (hslot w).1, (hslot w).2]
      exact id
    · exact h
  · exact h

theorem signalRows_keeps_row (share : Share) (layout : List (Option ShareWidget)) (ptr : Nat)
    (slot : ShareWidget → ShareWidget)
    (hslot : ∀ w, w._share.ptr = ptr → isLiveRowFor share (some w) = true →
      isLiveRowFor share (some (slot w)) = true)
    (h : layout.any (isLiveRowFor share) = true) :
    (signalRows layout ptr slot).any (isLiveRowFor share) = true := by
  unfold signalRows
  refine any_map_of _ _ layout ?_ h
  intro item hitem
  cases item with
  | none => exact hitem
  | some w =>
    by_cases hp : w._share.ptr = ptr
    · simpa [hp] using hslot w hp hitem
    · simpa [hp] using hitem

theorem step_keeps_row (H : Headers) (s : ShareUserGroupWidget) (share : Share) (e : Event)
    (he : e.rebuildsOrConfirms share.ptr = false) (h : s.showsRowFor share = true) :
    (s.step H e).1.showsRowFor share = true := by
  unfold ShareUserGroupWidget.showsRowFor at h ⊢
  cases e with
  | textChanged text =>
    simp only [ShareUserGroupWidget.step, ShareUserGroupWidget.on_shareeLineEdit_textChanged]
    split <;> exact h
  | searchClicked =>
    simp only [ShareUserGroupWidget.step]
    split
    · exact h
    · exact h
  | shareesReady => exact h
  | shareCreated => exact h
  | sharesFetched shares => simp [Event.rebuildsOrConfirms] at he
  | completerActivated getSharee row =>
    simp only [ShareUserGroupWidget.step, ShareUserGroupWidget.slotCompleterActivated]
    split
    · exact h
    · simp only [ShareUserGroupWidget.shareeLineEdit_setText,
        ShareUserGroupWidget.on_shareeLineEdit_textChanged]
      split
      · exact h
      · split <;> exact h
  | deleteClicked i =>
    exact clickRow_keeps_row share _ i _ (fun w => ⟨rfl, rfl⟩) h
  | permissionClicked i box state =>
    refine clickRow_keeps_row share _ i _ (fun w => ?_) h
    cases box <;> exact ⟨rfl, rfl⟩
  | permissionsSet ptr =>
    exact signalRows_keeps_row share _ ptr _ (fun w _ hw => hw) h
  | shareDeleted ptr =>
    refine signalRows_keeps_row share _ ptr _ (fun w hp hw => ?_) h
    have hne : ptr ≠ share.ptr := by simpa [Event.rebuildsOrConfirms] using he
    have hsh : w._share = share := by
      simp only [isLiveRowFor, Bool.and_eq_true, decide_eq_true_eq] at hw
      exact hw.1
    exact absurd (hsh ▸ hp).symm hne
  | deferredDelete =>
    refine any_filter_of _ _ _ ?_ h
    intro item hitem
    cases item with
    | none => rfl
    | some w =>
      simp only [isLiveRowFor, Bool.and_eq_true] at hitem
      exact hitem.2

theorem run_keeps_row (H : Headers) (share : Share) (evs : List Event)
    (s : ShareUserGroupWidget)
    (hevs : ∀ e ∈ evs, e.rebuildsOrConfirms share.ptr = false)
    (h : s.showsRowFor share = true) :
    (s.run H evs).1.showsRowFor share = true := by
  induction evs generalizing s with
  | nil => exact h
  | cons e es ih =>
    simp only [ShareUserGroupWidget.run]
    exact ih _ (fun e1 h1 => hevs e1 (List.mem_cons_of_mem _ h1))
      (step_keeps_row H s share e (hevs e (List.mem_cons_self _ _)) h)

/-- C8, as stated, fails: in the sample panel the row for `sampleShare` is
clicked for deletion (one `deleteShare` call is made) and the next event is a
rebuild with an empty fetch result; no `shareDeleted` signal was delivered, yet
the row is gone and the layout is empty. -/
theorem rebuild_removes_row_before_confirmation :
    samplePanel.showsRowFor sampleShare = true ∧
    (∀ e ∈ [Event.deleteClicked 0, Event.sharesFetched []], ∀ ptr,
      e ≠ Event.shareDeleted ptr) ∧
    (samplePanel.run sampleHeaders [Event.deleteClicked 0, Event.sharesFetched []]).2 =
      [Call.deleteShare sampleShare] ∧
    (samplePanel.run sampleHeaders
      [Event.deleteClicked 0, Event.sharesFetched []]).1.sharesLayout = [] ∧
    (samplePanel.run sampleHeaders
      [Event.deleteClicked 0, Event.sharesFetched []]).1.showsRowFor sampleShare = false := by
  refine ⟨by decide, ?_, rfl, rfl, rfl⟩
  intro e he ptr
  simp only [List.mem_cons, List.mem_singleton, List.not_mem_nil, or_false] at he
  rcases he with rfl | rfl <;> simp

/-- C8, amended: a delete click on an enabled row disables that row at once
and makes exactly one call, `deleteShare` on its share, while the row stays in
the layout at its place; after that, whatever events follow, as long as none
of them is a panel rebuild (`sharesFetched`) or the deletion confirmation of
that share (`shareDeleted`), the panel still shows the row. A panel rebuild
delivered after the click, whatever list it carries, leaves in the layout only
the new rows built for the fetched non-link shares, and the disabled row is
not among them. -/
theorem delete_click_keeps_row (H : Headers) (s : ShareUserGroupWidget) (i : Nat)
    (w : ShareWidget) (evs : List Event)
    (hi : s.sharesLayout[i]? = some (some w)) (hen : w.enabled = true)
    (hlive : w.deleteLaterPosted = false)
    (hevs : ∀ e ∈ evs, e.rebuildsOrConfirms w._share.ptr = false) :
    (s.step H (Event.deleteClicked i)).2 = [Call.deleteShare w._share] ∧
    (s.step H (Event.deleteClicked i)).1.sharesLayout =
      s.sharesLayout.set i (some { w with enabled := false }) ∧
    (s.step H (Event.deleteClicked i)).1.sharesLayout.length = s.sharesLayout.length ∧
    ((s.step H (Event.deleteClicked i)).1.run H evs).1.showsRowFor w._share = true ∧
    (∀ shares : List Share,
      ((s.step H (Event.deleteClicked i)).1.step H (Event.sharesFetched shares)).1.sharesLayout =
        (shares.filter fun share => decide (share.shareType ≠ H.TypeLink)).map
          (fun share => some (ShareWidget.new H share)) ∧
      some { w with enabled := false } ∉
        ((s.step H (Event.deleteClicked i)).1.step H
          (Event.sharesFetched shares)).1.sharesLayout) := by
  have hcalls : (s.step H (Event.deleteClicked i)).2 = [Call.deleteShare w._share] := by
    simp [ShareUserGroupWidget.step, clickRow, hi, hen,
      ShareWidget.on_deleteShareButton_clicked]
  have hlayout : (s.step H (Event.deleteClicked i)).1.sharesLayout =
      s.sharesLayout.set i (some { w with enabled := false }) := by
    simp [ShareUserGroupWidget.step, clickRow, hi, hen,
      ShareWidget.on_deleteShareButton_clicked]
  have hrebuild : ∀ (s1 : ShareUserGroupWidget) (shares : List Share),
      (s1.step H (Event.sharesFetched shares)).1.sharesLayout =
        (shares.filter fun share => decide (share.shareType ≠ H.TypeLink)).map
          (fun share => some (ShareWidget.new H share)) := by
    intro s1 shares
    simp [ShareUserGroupWidget.step, ShareUserGroupWidget.slotSharesFetched,
      deleteAllWidgets_eq_nil, foldl_addShareWidget]
  refine ⟨hcalls, hlayout, ?_, ?_, ?_⟩
  · rw [hlayout, List.length_set]
  · apply run_keeps_row H w._share evs _ hevs
    apply step_keeps_row H s w._share (Event.deleteClicked i) rfl
    unfold ShareUserGroupWidget.showsRowFor
    rw [List.any_eq_true]
    exact ⟨some w, List.getElem?_mem hi, by simp [isLiveRowFor, hlive]⟩
  · intro shares
    refine ⟨hrebuild _ shares, ?_⟩
    rw [hrebuild _ shares]
    intro hmem
    obtain ⟨share, _, heq⟩ := List.mem_map.mp hmem
    have hen1 := congrArg (fun item => item.map ShareWidget.enabled) heq
    simp [ShareWidget.new] at hen1

/-- C8, amended, instance: in the sample panel the row for `sampleShare` is
clicked for deletion, then the search text changes, a permission confirmation
and the deferred deletions are delivered: the row is still shown. -/
theorem delete_click_keeps_row_witness :
    samplePanel.sharesLayout[0]? = some (some (ShareWidget.new sampleHeaders sampleShare)) ∧
    (samplePanel.step sampleHeaders (Event.deleteClicked 0)).2 =
      [Call.deleteShare sampleShare] ∧
    (((samplePanel.step sampleHeaders (Event.deleteClicked 0)).1.run sampleHeaders
      [Event.textChanged "b", Event.permissionsSet 7, Event.deferredDelete]).1.showsRowFor
        sampleShare = true) :=
  ⟨rfl,
   (delete_click_keeps_row sampleHeaders samplePanel 0 (ShareWidget.new sampleHeaders sampleShare)
     [Event.textChanged "b", Event.permissionsSet 7, Event.deferredDelete] rfl rfl rfl
     (by simp [Event.rebuildsOrConfirms])).1,
   (delete_click_keeps_row sampleHeaders samplePanel 0 (ShareWidget.new sampleHeaders sampleShare)
     [Event.textChanged "b", Event.permissionsSet 7, Event.deferredDelete] rfl rfl rfl
     (by simp [Event.rebuildsOrConfirms])).2.2.2.1⟩

/-! ## The state machine of a row -/

theorem phase_enabled_iff (r : RowState) :
    r.phase = .Enabled ↔ r.widget.deleteLaterPosted = false ∧ r.widget.enabled = true := by
  unfold RowState.phase
  cases r.widget.deleteLaterPosted <;> cases r.widget.enabled <;> simp

theorem phase_destroyed_iff (r : RowState) :
    r.phase = .Destroyed ↔ r.widget.deleteLaterPosted = true := by
  unfold RowState.phase
  cases r.widget.deleteLaterPosted <;> cases r.widget.enabled <;> simp

theorem phase_disabledPending_iff (r : RowState) :
    r.phase = .DisabledPending ↔
      r.widget.deleteLaterPosted = false ∧ r.widget.enabled = false := by
  unfold RowState.phase
  cases r.widget.deleteLaterPosted <;> cases r.widget.enabled <;> simp

theorem inv_init (H : Headers) (share : Share) : (RowState.init H share).Inv := by
  simp [RowState.Inv, RowState.init, ShareWidget.new]

theorem inFlight_cases (r : RowState) (h : r.Inv) : r.inFlight = [] ∨ ∃ c, r.inFlight = [c] := by
  obtain ⟨_, _, hlen, _, _⟩ := h
  match hl : r.inFlight with
  | [] => exact Or.inl rfl
  | [c] => exact Or.inr ⟨c, rfl⟩
  | _ :: _ :: _ => rw [hl] at hlen; simp at hlen

theorem inv_step (H : Headers) (r r1 : RowState) (e : RowEvent) (h : r.Inv)
    (hs : r.step H e = some r1) : r1.Inv := by
  have hcases := inFlight_cases r h
  obtain ⟨hen, hdes, hlen, hkind, hoff⟩ := h
  have hlive : r.phase ≠ .Destroyed → r.widget.deleteLaterPosted = false := by
    intro hp
    cases hdl : r.widget.deleteLaterPosted with
    | false => rfl
    | true => exact absurd ((phase_destroyed_iff r).mpr hdl) hp
  cases e with
  | deleteClicked =>
    simp only [RowState.step] at hs
    split at hs
    · rename_i hp
      obtain ⟨hd, he⟩ := (phase_enabled_iff r).mp hp
      have hnil := (hen hd).mp he
      simp only [Option.some.injEq] at hs
      subst hs
      simp [RowState.Inv, ShareWidget.on_deleteShareButton_clicked, hnil, hd,
        Call.isDeleteShare]
    · simp at hs
  | permissionClicked box state =>
    simp only [RowState.step] at hs
    split at hs
    · rename_i hp
      obtain ⟨hd, he⟩ := (phase_enabled_iff r).mp hp
      have hnil := (hen hd).mp he
      simp only [Option.some.injEq] at hs
      subst hs
      have hd1 : (r.widget.setCheckState box state).deleteLaterPosted = false := by
        cases box <;> exact hd
      simp [RowState.Inv, ShareWidget.slotPermissionsChanged, hnil, hd1,
        Call.isSetPermissions]
    · simp at hs
  | permissionsSet =>
    simp only [RowState.step] at hs
    split at hs
    · rename_i hg
      simp only [Option.some.injEq] at hs
      subst hs
      rcases hcases with hnil | ⟨c, hc⟩
      · simp [hnil] at hg
      · have hcs : c.isSetPermissions = true := by simpa [hc] using hg.2
        simp [RowState.Inv, ShareWidget.slotPermissionsSet, hc, hcs, hlive hg.1]
    · simp at hs
  | shareDeleted =>
    simp only [RowState.step] at hs
    split at hs
    · rename_i hg
      simp only [Option.some.injEq] at hs
      subst hs
      rcases hcases with hnil | ⟨c, hc⟩
      · simp [hnil] at hg
      · have hcs : c.isDeleteShare = true := by simpa [hc] using hg.2
        have hdis : r.widget.enabled = false := by
          cases he : r.widget.enabled with
          | false => rfl
          | true =>
            have hnil := (hen (hlive hg.1)).mp he
            rw [hc] at hnil
            exact absurd hnil (by simp)
        simp [RowState.Inv, ShareWidget.slotShareDeleted, hc, hcs, hdis]
    · simp at hs

theorem inv_run (H : Headers) (evs : List RowEvent) (r r1 : RowState) (h : r.Inv)
    (hr : r.run H evs = some r1) : r1.Inv := by
  induction evs generalizing r with
  | nil =>
    simp only [RowState.run, Option.some.injEq] at hr
    exact hr ▸ h
  | cons e es ih =>
    simp only [RowState.run] at hr
    split at hr
    · rename_i r2 h2
      exact ih r2 (inv_step H r r2 e h h2) hr
    · simp at hr

/-- C9, as stated, fails: after a delete click and the deleted confirmation the
row built for `sampleShare` is Destroyed, disabled, and has no request in
flight, so "enabled if and only if no request in flight" does not hold of it. -/
theorem destroyed_row_disabled_and_idle :
    (RowState.init sampleHeaders sampleShare).run sampleHeaders
        [RowEvent.deleteClicked, RowEvent.shareDeleted] =
      some { widget := { ShareWidget.new sampleHeaders sampleShare with
                           enabled := false, deleteLaterPosted := true }
             inFlight := [] } ∧
    ¬ (({ widget := { ShareWidget.new sampleHeaders sampleShare with
                        enabled := false, deleteLaterPosted := true }
          inFlight := [] } : RowState).widget.enabled = true ↔
       ({ widget := { ShareWidget.new sampleHeaders sampleShare with
                        enabled := false, deleteLaterPosted := true }
          inFlight := [] } : RowState).inFlight = []) := by
  refine ⟨rfl, ?_⟩
  simp

/-- C9, amended: in every state a row reaches from its construction by clicks
(accepted only when the row is Enabled) and confirmations (delivered only for
a request in flight), a row that is not Destroyed is enabled exactly when no
request is in flight, and at most one request is in flight: none in Enabled,
exactly one in Disabled-pending, none in Destroyed. A permission click and a
delete click move Enabled to Disabled-pending; the only event leading to
Enabled is the permissions-set confirmation, which leaves Disabled-pending;
the deleted confirmation moves Disabled-pending to Destroyed; in
Disabled-pending one of the two confirmations can be delivered; and a
Destroyed row is disabled with no request in flight. -/
theorem row_state_machine (H : Headers) (share : Share) (evs : List RowEvent) (r : RowState)
    (hr : (RowState.init H share).run H evs = some r) :
    (r.phase ≠ .Destroyed → (r.widget.enabled = true ↔ r.inFlight = [])) ∧
    r.inFlight.length ≤ 1 ∧
    (r.phase = .Enabled → r.inFlight = []) ∧
    (r.phase = .DisabledPending → ∃ c, r.inFlight = [c]) ∧
    (r.phase = .Destroyed → r.inFlight = []) ∧
    (r.phase = .Enabled → ∀ box state, ∃ r1,
      r.step H (.permissionClicked box state) = some r1 ∧ r1.phase = .DisabledPending) ∧
    (r.phase = .Enabled → ∃ r1,
      r.step H .deleteClicked = some r1 ∧ r1.phase = .DisabledPending) ∧
    (∀ e r1, r.step H e = some r1 → r1.phase = .Enabled → e = .permissionsSet) ∧
    (∀ r1, r.step H .permissionsSet = some r1 →
      r.phase = .DisabledPending ∧ r1.phase = .Enabled) ∧
    (∀ r1, r.step H .shareDeleted = some r1 →
      r.phase = .DisabledPending ∧ r1.phase = .Destroyed) ∧
    (∀ e r1, r.step H e = some r1 → e ≠ .permissionsSet → e ≠ .shareDeleted →
      r.phase = .Enabled) ∧
    (r.phase = .DisabledPending →
      (∃ r1, r.step H .permissionsSet = some r1) ∨ ∃ r1, r.step H .shareDeleted = some r1) ∧
    (r.phase = .Destroyed → r.widget.enabled = false ∧ r.inFlight = []) := by
  have hinv := inv_run H evs _ r (inv_init H share) hr
  have hcases := inFlight_cases r hinv
  obtain ⟨hen, hdes, hlen, hkind, hoff⟩ := hinv
  have hlive : r.phase ≠ .Destroyed → r.widget.deleteLaterPosted = false := by
    intro h
    cases hd : r.widget.deleteLaterPosted with
    | false => rfl
    | true => exact absurd ((phase_destroyed_iff r).mpr hd) h
  have hpending : r.phase ≠ .Destroyed → r.inFlight ≠ [] → r.phase = .DisabledPending := by
    intro h hne
    have hd := hlive h
    refine (phase_disabledPending_iff r).mpr ⟨hd, ?_⟩
    cases he : r.widget.enabled with
    | false => rfl
    | true => exact absurd ((hen hd).mp he) hne
  refine ⟨fun h => hen (hlive h), hlen, ?_, ?_, ?_, ?_, ?_, ?_, ?_, ?_, ?_, ?_, ?_⟩
  · intro h
    obtain ⟨hd, he⟩ := (phase_enabled_iff r).mp h
    exact (hen hd).mp he
  · intro h
    obtain ⟨hd, he⟩ := (phase_disabledPending_iff r).mp h
    rcases hcases with hnil | hc
    · have := (hen hd).mpr hnil
      rw [he] at this
      exact absurd this (by simp)
    · exact hc
  · intro h
    exact hdes ((phase_destroyed_iff r).mp h)
  · intro h box state
    obtain ⟨hd, _⟩ := (phase_enabled_iff r).mp h
    have hstep : r.step H (.permissionClicked box state) =
        some { widget := ((r.widget.setCheckState box state).slotPermissionsChanged H).1
               inFlight :=
                r.inFlight ++ ((r.widget.setCheckState box state).slotPermissionsChanged H).2 } := by
      simp only [RowState.step, h, if_true]
    refine ⟨_, hstep, ?_⟩
    rw [phase_disabledPending_iff]
    cases box <;> exact ⟨hd, rfl⟩
  · intro h
    obtain ⟨hd, _⟩ := (phase_enabled_iff r).mp h
    have hstep : r.step H .deleteClicked =
        some { widget := r.widget.on_deleteShareButton_clicked.1
               inFlight := r.inFlight ++ r.widget.on_deleteShareButton_clicked.2 } := by
      simp only [RowState.step, h, if_true]
    refine ⟨_, hstep, ?_⟩
    rw [phase_disabledPending_iff]
    exact ⟨hd, rfl⟩
  · intro e r1 hs h1
    cases e with
    | deleteClicked =>
      simp only [RowState.step] at hs
      split at hs
      · simp only [Option.some.injEq] at hs
        subst hs
        have := ((phase_enabled_iff _).mp h1).2
        simp [ShareWidget.on_deleteShareButton_clicked] at this
      · simp at hs
    | permissionClicked box state =>
      simp only [RowState.step] at hs
      split at hs
      · simp only [Option.some.injEq] at hs
        subst hs
        have := ((phase_enabled_iff _).mp h1).2
        simp [ShareWidget.slotPermissionsChanged] at this
      · simp at hs
    | permissionsSet => rfl
    | shareDeleted =>
      simp only [RowState.step] at hs
      split at hs
      · simp only [Option.some.injEq] at hs
        subst hs
        have := ((phase_enabled_iff _).mp h1).1
        simp [ShareWidget.slotShareDeleted] at this
      · simp at hs
  · intro r1 hs
    simp only [RowState.step] at hs
    split at hs
    · rename_i hg
      simp only [Option.some.injEq] at hs
      subst hs
      have hne : r.inFlight ≠ [] := by
        intro hnil
        simp [hnil] at hg
      refine ⟨hpending hg.1 hne, ?_⟩
      rw [phase_enabled_iff]
      exact ⟨hlive hg.1, rfl⟩
    · simp at hs
  · intro r1 hs
    simp only [RowState.step] at hs
    split at hs
    · rename_i hg
      simp only [Option.some.injEq] at hs
      subst hs
      have hne : r.inFlight ≠ [] := by
        intro hnil
        simp [hnil] at hg
      refine ⟨hpending hg.1 hne, ?_⟩
      rw [phase_destroyed_iff]
      rfl
    · simp at hs
  · intro e r1 hs h1 h2
    cases e with
    | deleteClicked =>
      simp only [RowState.step] at hs
      split at hs
      · assumption
      · simp at hs
    | permissionClicked box state =>
      simp only [RowState.step] at hs
      split at hs
      · assumption
      · simp at hs
    | permissionsSet => exact absurd rfl h1
    | shareDeleted => exact absurd rfl h2
  · intro h
    have hnd : r.phase ≠ .Destroyed := by rw [h]; simp
    obtain ⟨hd, he⟩ := (phase_disabledPending_iff r).mp h
    rcases hcases with hnil | ⟨c, hc⟩
    · have := (hen hd).mpr hnil
      rw [he] at this
      exact absurd this (by simp)
    · rcases hkind c (by simp [hc]) with hk | hk
      · left
        have hg : r.phase ≠ .Destroyed ∧ r.inFlight.any Call.isSetPermissions = true :=
          ⟨hnd, by simp [hc, hk]⟩
        exact ⟨{ widget := r.widget.slotPermissionsSet
                 inFlight := r.inFlight.eraseP Call.isSetPermissions },
          by simp only [RowState.step, if_pos hg]⟩
      · right
        have hg : r.phase ≠ .Destroyed ∧ r.inFlight.any Call.isDeleteShare = true :=
          ⟨hnd, by simp [hc, hk]⟩
        exact ⟨{ widget := r.widget.slotShareDeleted
                 inFlight := r.inFlight.eraseP Call.isDeleteShare },
          by simp only [RowState.step, if_pos hg]⟩
  · intro h
    have hd := (phase_destroyed_iff r).mp h
    exact ⟨hoff hd, hdes hd⟩

/-- C9, amended, instance: the row built for `sampleShare`, after a click on its
"create" box, the permissions-set confirmation and a delete click, is in
Disabled-pending with one request in flight, and the deleted confirmation
moves it to Destroyed. -/
theorem row_state_machine_witness :
    ∃ r, (RowState.init sampleHeaders sampleShare).run sampleHeaders
        [RowEvent.permissionClicked PermissionBox.Create CheckState.Checked,
         RowEvent.permissionsSet, RowEvent.deleteClicked] = some r ∧
      r.phase = .DisabledPending ∧
      r.inFlight = [Call.deleteShare sampleShare] ∧
      (r.phase = .DisabledPending → ∃ c, r.inFlight = [c]) ∧
      (∀ r1, r.step sampleHeaders .shareDeleted = some r1 →
        r.phase = .DisabledPending ∧ r1.phase = .Destroyed) :=
  ⟨{ widget := { ShareWidget.new sampleHeaders sampleShare with
                  permissionCreate := .Checked, enabled := false }
     inFlight := [Call.deleteShare sampleShare] },
   rfl, rfl, rfl,
   (row_state_machine sampleHeaders sampleShare
     [RowEvent.permissionClicked PermissionBox.Create CheckState.Checked,
      RowEvent.permissionsSet, RowEvent.deleteClicked] _ rfl).2.2.2.1,
   (row_state_machine sampleHeaders sampleShare
     [RowEvent.permissionClicked PermissionBox.Create CheckState.Checked,
      RowEvent.permissionsSet, RowEvent.deleteClicked] _ rfl).2.2.2.2.2.2.2.2.2.1⟩

end OCC
